import Mathlib

/-!
Shallow embedding of the range-list extraction engine of the `cutr` tool
(src/cutr/src/lib.rs): parsing of comma-separated position/range specs,
extraction of characters / bytes / delimited fields from a line, and the
per-file driver loop.  Rust `String`/`&str` values are modelled as `List Char`,
byte strings as `List Nat` (each element `< 256`), `Range<usize>` as `RRange`,
and `Result<T, Box<dyn Error>>` as `Except Str T` where the error carries the
formatted message text.
-/

/-- Rust strings (`String` / `&str`) are modelled as lists of unicode scalar
values, matching what `str::chars()` iterates over. -/
abbrev Str := List Char

/-- Models Rust's `str::split(sep)`: splitting never yields an empty list
(`"".split(',')` is `[""]`), and adjacent separators yield empty tokens. -/
def splitOn (sep : Char) : Str → List Str
  | [] => [[]]
  | c :: rest =>
    if c = sep then [] :: splitOn sep rest
    else
      match splitOn sep rest with
      | [] => [[c]]
      | t :: ts => (c :: t) :: ts

/-- The code-point ranges of the Unicode `Decimal_Number` (`Nd`) general
category (Unicode 14.0): the character class the regex crate's `\d`
matches in its default Unicode mode. -/
def ndRanges : List (Nat × Nat) :=
  [(0x30, 0x39), (0x660, 0x669), (0x6F0, 0x6F9), (0x7C0, 0x7C9),
    (0x966, 0x96F), (0x9E6, 0x9EF), (0xA66, 0xA6F), (0xAE6, 0xAEF),
    (0xB66, 0xB6F), (0xBE6, 0xBEF), (0xC66, 0xC6F), (0xCE6, 0xCEF),
    (0xD66, 0xD6F), (0xDE6, 0xDEF), (0xE50, 0xE59), (0xED0, 0xED9),
    (0xF20, 0xF29), (0x1040, 0x1049), (0x1090, 0x1099), (0x17E0, 0x17E9),
    (0x1810, 0x1819), (0x1946, 0x194F), (0x19D0, 0x19D9), (0x1A80, 0x1A89),
    (0x1A90, 0x1A99), (0x1B50, 0x1B59), (0x1BB0, 0x1BB9), (0x1C40, 0x1C49),
    (0x1C50, 0x1C59), (0xA620, 0xA629), (0xA8D0, 0xA8D9), (0xA900, 0xA909),
    (0xA9D0, 0xA9D9), (0xA9F0, 0xA9F9), (0xAA50, 0xAA59), (0xABF0, 0xABF9),
    (0xFF10, 0xFF19), (0x104A0, 0x104A9), (0x10D30, 0x10D39), (0x11066, 0x1106F),
    (0x110F0, 0x110F9), (0x11136, 0x1113F), (0x111D0, 0x111D9), (0x112F0, 0x112F9),
    (0x11450, 0x11459), (0x114D0, 0x114D9), (0x11650, 0x11659), (0x116C0, 0x116C9),
    (0x11730, 0x11739), (0x118E0, 0x118E9), (0x11950, 0x11959), (0x11C50, 0x11C59),
    (0x11D50, 0x11D59), (0x11DA0, 0x11DA9), (0x16A60, 0x16A69), (0x16AC0, 0x16AC9),
    (0x16B50, 0x16B59), (0x1D7CE, 0x1D7FF), (0x1E140, 0x1E149), (0x1E2F0, 0x1E2F9),
    (0x1E950, 0x1E959), (0x1FBF0, 0x1FBF9)]

/-- Models the regex character class `\d`: the regex crate compiles `\d` in
Unicode mode, so it matches every `Decimal_Number` character, not only
ASCII `0-9`. -/
def isDigit (c : Char) : Bool :=
  ndRanges.any fun p => decide (p.1 ≤ c.toNat) && decide (c.toNat ≤ p.2)

/-- An ASCII decimal digit: the only digits `str::parse::<usize>`
(`usize::from_str`) accepts. -/
def isAsciiDigit (c : Char) : Bool :=
  decide (0x30 ≤ c.toNat) && decide (c.toNat ≤ 0x39)

/-- Numeric value of a decimal digit string (the semantics of
`str::parse::<usize>` on a string of digits, before the overflow check). -/
def digitsToNat (s : Str) : Nat :=
  s.foldl (fun acc c => 10 * acc + (c.toNat - '0'.toNat)) 0

/-- Decimal rendering of a natural number, as used by Rust's `format!("{}", n)`. -/
def natToStr (n : Nat) : Str := (Nat.repr n).data

/-- Largest value of the 64-bit `usize` type. -/
def USIZE_MAX : Nat := 2 ^ 64 - 1

/-- Message displayed by Rust's `ParseIntError` for positive overflow. -/
def overflowMsg : Str := "number too large to fit in target type".data

/-- Message displayed by Rust's `ParseIntError` when a character is not an
ASCII digit (e.g. a non-ASCII Unicode digit that the regex accepted). -/
def invalidDigitMsg : Str := "invalid digit found in string".data

/-- Message displayed by Rust's `ParseIntError` for an empty input. -/
def emptyIntMsg : Str := "cannot parse integer from empty string".data

/-- Message built by `create_interval_error` in src/cutr/src/lib.rs. -/
def illegalListValueMsg (interval : Str) : Str :=
  "illegal list value: \"".data ++ interval ++ "\"".data

/-- Message built for an out-of-order range in `interval_to_range`. -/
def rangeOrderMsg (a b : Nat) : Str :=
  "First number in range (".data ++ natToStr a ++
    ") must be lower than second number (".data ++ natToStr b ++ ")".data

/-- Models Rust's `Range<usize>`; the field `stop` models `Range::end`
(`end` is a reserved word in Lean). -/
structure RRange where
  start : Nat
  stop : Nat
  deriving DecidableEq, Repr

/-- Models matching the anchored regex `^(\d+)(-(\d+))?$` from
`interval_to_range`, with `\d` the Unicode class `isDigit`: on success
returns capture group 1 (the leading digit run, which the greedy `\d+`
makes maximal, since `-` is not a digit) and, when present, capture
group 3 (the digit run after `-`). -/
def matchIntervalRe (s : Str) : Option (Str × Option Str) :=
  let d1 := s.takeWhile isDigit
  let rest := s.dropWhile isDigit
  if d1.isEmpty then none
  else
    match rest with
    | [] => some (d1, none)
    | '-' :: ds =>
      if !ds.isEmpty && ds.all isDigit then some (d1, some ds) else none
    | _ => none

/-- Left-to-right digit scan of `usize::from_str`: accumulate ASCII digits,
fail at the first character that is not an ASCII digit, fail when the
accumulated value overflows `usize`. -/
def parseUsize (acc : Nat) : Str → Except Str Nat
  | [] => .ok acc
  | c :: rest =>
    if isAsciiDigit c then
      let acc := 10 * acc + (c.toNat - '0'.toNat)
      if acc ≤ USIZE_MAX then parseUsize acc rest
      else .error overflowMsg
    else .error invalidDigitMsg

/-- Models `parse_index` (src/cutr/src/lib.rs:169): parse a captured digit
run with `str::parse::<usize>`.  The regex capture is a nonempty run of
Unicode `\d` characters, so the possible failures are a non-ASCII digit
(`invalid digit found in string`) and overflow (the unused sign handling
of `usize::from_str` is not modelled). -/
def parse_index (s : Str) : Except Str Nat :=
  match s with
  | [] => .error emptyIntMsg
  | _ => parseUsize 0 s

/-- Models `create_range_error` (src/cutr/src/lib.rs:180). -/
def create_range_error (message : Str) : Except Str RRange := .error message

/-- Models `create_interval_error` (src/cutr/src/lib.rs:176). -/
def create_interval_error (interval : Str) : Except Str RRange :=
  create_range_error (illegalListValueMsg interval)

/-- Models `interval_to_range` (src/cutr/src/lib.rs:134): match the token
against `^(\d+)(-(\d+))?$`, reject a start below 1 (echoing the parsed
value), then turn `n` into `(n-1)..n` and `a-b` with `a < b` into `(a-1)..b`,
rejecting `a >= b` with the range-order message. -/
def interval_to_range (interval : Str) : Except Str RRange :=
  match matchIntervalRe interval with
  | none => create_interval_error interval
  | some (g1, g3) =>
    match parse_index g1 with
    | .error e => .error e
    | .ok start =>
      if start < 1 then
        create_interval_error (natToStr start)
      else
        match g3 with
        | none => .ok ⟨start - 1, start⟩
        | some g =>
          match parse_index g with
          | .error e => .error e
          | .ok stop =>
            if start < stop then .ok ⟨start - 1, stop⟩
            else create_range_error (rangeOrderMsg start stop)

/-- Models the `collect::<Result<Vec<_>, _>>` step of `parse_pos`: fold the
per-token results left to right, stopping at the first error, otherwise
keeping all parsed ranges in order. -/
def collectRanges : List Str → Except Str (List RRange)
  | [] => .ok []
  | t :: ts =>
    match interval_to_range t with
    | .error e => .error e
    | .ok r =>
      match collectRanges ts with
      | .error e => .error e
      | .ok rs => .ok (r :: rs)

/-- Models `parse_pos` (src/cutr/src/lib.rs:127): split the spec on `,`,
parse the tokens left to right, fail on the first invalid token. -/
def parse_pos (range : Str) : Except Str (List RRange) :=
  collectRanges (splitOn ',' range)

/-- Models `chars_in_range` (src/cutr/src/lib.rs:281): the slice `chars[s..e]`
is copied only when `s < e` and `e <= chars.len()`; otherwise the range
contributes the empty string. -/
def chars_in_range (chars : List Char) (range : RRange) : Str :=
  let l := chars.length
  let s := range.start
  let e := range.stop
  if s < e ∧ e ≤ l then (chars.drop s).take (e - s) else []

/-- Models `extract_chars` (src/cutr/src/lib.rs:269): collect the line's
unicode scalar values, apply `chars_in_range` per range, join with `""`. -/
def extract_chars (line : Str) (char_positions : List RRange) : Str :=
  (char_positions.map (chars_in_range line)).flatten

/-- UTF-8 encoding of one unicode scalar value, as in Rust's `str::bytes`. -/
def utf8EncodeChar (c : Nat) : List Nat :=
  if c < 0x80 then [c]
  else if c < 0x800 then [0xC0 + c / 0x40, 0x80 + c % 0x40]
  else if c < 0x10000 then
    [0xE0 + c / 0x1000, 0x80 + c / 0x40 % 0x40, 0x80 + c % 0x40]
  else
    [0xF0 + c / 0x40000, 0x80 + c / 0x1000 % 0x40, 0x80 + c / 0x40 % 0x40,
      0x80 + c % 0x40]

/-- Byte sequence of a line, models `str::bytes` (UTF-8 code units). -/
def strBytes (line : Str) : List Nat :=
  (line.map (fun c => utf8EncodeChar c.toNat)).flatten

/-- The unicode replacement character U+FFFD, which
`String::from_utf8_lossy` substitutes for invalid byte sequences. -/
def replacementChar : Char := Char.ofNat 0xFFFD

/-- State of the incremental UTF-8 decoder: a partially consumed multi-byte
sequence.  `needed` continuation bytes are still expected, `acc` holds the
scalar-value bits consumed so far, and the next byte must lie in
`[lo, hi]` (the first continuation byte of a 3- or 4-byte sequence has
narrowed bounds that rule out overlong forms and surrogates, exactly as in
Rust's `core::str` UTF-8 validation). -/
structure Utf8Pending where
  needed : Nat
  acc : Nat
  lo : Nat
  hi : Nat
  deriving DecidableEq, Repr

/-- Classify a byte as the start of a UTF-8 sequence: an ASCII byte decodes
immediately, an invalid lead byte (stray continuation, overlong `C0`/`C1`,
or `F5..FF`) yields one replacement character, and a valid multi-byte lead
opens a pending sequence with the bounds Rust's validator imposes on the
following byte. -/
def utf8Lead (b : Nat) : Str × Option Utf8Pending :=
  if b < 0x80 then ([Char.ofNat b], none)
  else if b < 0xC2 then ([replacementChar], none)
  else if b < 0xE0 then ([], some ⟨1, b - 0xC0, 0x80, 0xBF⟩)
  else if b = 0xE0 then ([], some ⟨2, 0, 0xA0, 0xBF⟩)
  else if b = 0xED then ([], some ⟨2, 0xD, 0x80, 0x9F⟩)
  else if b < 0xF0 then ([], some ⟨2, b - 0xE0, 0x80, 0xBF⟩)
  else if b = 0xF0 then ([], some ⟨3, 0, 0x90, 0xBF⟩)
  else if b = 0xF4 then ([], some ⟨3, 4, 0x80, 0x8F⟩)
  else if b < 0xF5 then ([], some ⟨3, b - 0xF0, 0x80, 0xBF⟩)
  else ([replacementChar], none)

/-- Feed one byte to the decoder.  A byte that fails the pending sequence's
continuation check emits one replacement character for the invalid prefix
and is then reprocessed as a lead byte (Rust's lossy decoding resumes at
the offending byte). -/
def utf8Step (st : Option Utf8Pending) (b : Nat) : Str × Option Utf8Pending :=
  match st with
  | none => utf8Lead b
  | some p =>
    if p.lo ≤ b ∧ b ≤ p.hi then
      let acc := p.acc * 0x40 + (b - 0x80)
      if p.needed = 1 then ([Char.ofNat acc], none)
      else ([], some ⟨p.needed - 1, acc, 0x80, 0xBF⟩)
    else
      let (cs, st) := utf8Lead b
      (replacementChar :: cs, st)

/-- Run the decoder over the remaining bytes; a sequence left truncated at
the end of input yields one replacement character. -/
def utf8LossyAux (st : Option Utf8Pending) : List Nat → Str
  | [] => match st with | none => [] | some _ => [replacementChar]
  | b :: rest =>
    let (cs, st) := utf8Step st b
    cs ++ utf8LossyAux st rest

/-- Models Rust's `String::from_utf8_lossy`: decode UTF-8, replacing each
maximal invalid subpart with U+FFFD. -/
def from_utf8_lossy (bytes : List Nat) : Str := utf8LossyAux none bytes

/-- Models `bytes_in_range` (src/cutr/src/lib.rs:308): the byte slice
`bytes[s..e]` is decoded lossily only when `s < e` and `e <= bytes.len()`;
otherwise the range contributes the empty string. -/
def bytes_in_range (bytes : List Nat) (range : RRange) : Str :=
  let l := bytes.length
  let s := range.start
  let e := range.stop
  if s < e ∧ e ≤ l then from_utf8_lossy ((bytes.drop s).take (e - s)) else []

/-- Models `extract_bytes` (src/cutr/src/lib.rs:297): collect the line's
bytes, apply `bytes_in_range` per range, join with `""`. -/
def extract_bytes (line : Str) (byte_positions : List RRange) : Str :=
  (byte_positions.map (bytes_in_range (strBytes line))).flatten

/-- Models a csv `StringRecord`: the line's fields in order; `get` is
`List.get?`. -/
abbrev StringRecord := List Str

/-- Models `fields_in_range` (src/cutr/src/lib.rs:245): for each index `i` in
`start..end`, push `record.get(i)` when it is `Some`; out-of-bounds indices
are skipped individually (the loop body's `if let Some(field)`). -/
def fields_in_range (record : StringRecord) (range : RRange) : List Str :=
  (List.range' range.start (range.stop - range.start)).filterMap
    (fun i => record.get? i)

/-- Models `extract_fields` (src/cutr/src/lib.rs:235): `flat_map` of
`fields_in_range` over the ranges in their given order. -/
def extract_fields (record : StringRecord) (field_positions : List RRange) :
    List Str :=
  field_positions.flatMap (fields_in_range record)

/-- Models the `Extract` enum (src/cutr/src/lib.rs:13). -/
inductive Extract where
  | Fields (positions : List RRange)
  | Bytes (positions : List RRange)
  | Chars (positions : List RRange)

/-- Models `Config` (src/cutr/src/lib.rs:72); the single-byte delimiter is
modelled as the character it is pushed as into `delim_str`. -/
structure Config where
  files : List Str
  delimiter : Char
  extract : Extract

/-- Models `run_line` (src/cutr/src/lib.rs:258): the line printed for a
char- or byte-mode line; field mode returns early (`None`). -/
def run_line (line : Str) (config : Config) : Option Str :=
  match config.extract with
  | .Chars positions => some (extract_chars line positions)
  | .Bytes positions => some (extract_bytes line positions)
  | .Fields _ => none

/-- Models `run_file` (src/cutr/src/lib.rs:203) as the list of lines printed
to standard output for one input file.  Field mode models
`extract_fields_from_file`: the csv reader is modelled for unquoted
single-line records (each line split on the delimiter; the first line is
the header record, printed through the same `extract_fields` logic). -/
def run_file (lines : List Str) (config : Config) : List Str :=
  match config.extract with
  | .Fields positions =>
    let recordOut : Str → Str := fun line =>
      List.intercalate [config.delimiter]
        (extract_fields (splitOn config.delimiter line) positions)
    recordOut (lines.headD []) :: lines.tail.map recordOut
  | _ => lines.filterMap (fun line => run_line line config)

/-- Models `open` (src/cutr/src/lib.rs:196): `-` reads standard input and
never fails; other names go to the file system, modelled as a function
from file name to either the file's lines or the I/O error's message. -/
def openFile (fs : Str → Except Str (List Str)) (stdinLines : List Str)
    (filename : Str) : Except Str (List Str) :=
  if filename = "-".data then .ok stdinLines else fs filename

/-- Observable outcome of `run`: the lines printed to standard output, the
diagnostics printed to standard error, and the returned `Result`. -/
structure RunOutput where
  stdout : List Str
  stderr : List Str
  result : Except Str Unit
  deriving Repr

/-- Models `run` (src/cutr/src/lib.rs:184): for each file in order, open it
and process it, or print `"<filename>: <error>"` to standard error and
continue; always return `Ok(())`. -/
def run (fs : Str → Except Str (List Str)) (stdinLines : List Str)
    (config : Config) : RunOutput :=
  let step := fun (acc : List Str × List Str) (filename : Str) =>
    match openFile fs stdinLines filename with
    | .ok lines => (acc.1 ++ run_file lines config, acc.2)
    | .error e => (acc.1, acc.2 ++ [filename ++ ':' :: ' ' :: e])
  let (out, err) := config.files.foldl step ([], [])
  ⟨out, err, .ok ()⟩

/-- Spec-side definition of the token grammar, following the spec's words: a
token matches `^\d+$` (a nonempty digit string) or `^\d+-\d+$` (two
nonempty digit strings joined by a single `-`), where `\d` is the regex
crate's Unicode digit class `isDigit`. -/
def specTokenGrammar (t : Str) : Prop :=
  (t ≠ [] ∧ ∀ c ∈ t, isDigit c) ∨
  (∃ d1 d2, t = d1 ++ '-' :: d2 ∧ d1 ≠ [] ∧ d2 ≠ [] ∧
    (∀ c ∈ d1, isDigit c) ∧ (∀ c ∈ d2, isDigit c))

example : extract_chars "".data [⟨0, 1⟩] = "".data := by decide
example : extract_chars "ábc".data [⟨0, 1⟩] = "á".data := by decide
example : extract_chars "ábc".data [⟨0, 1⟩, ⟨2, 3⟩] = "ác".data := by decide
example : extract_chars "ábc".data [⟨2, 3⟩, ⟨1, 2⟩] = "cb".data := by decide
example : extract_chars "ábc".data [⟨0, 1⟩, ⟨1, 2⟩, ⟨4, 5⟩] = "áb".data := by
  decide

example : extract_bytes "ábc".data [⟨0, 1⟩] = [replacementChar] := by decide
example : extract_bytes "ábc".data [⟨0, 2⟩] = "á".data := by decide
example : extract_bytes "ábc".data [⟨0, 3⟩] = "áb".data := by decide
example : extract_bytes "ábc".data [⟨0, 4⟩] = "ábc".data := by decide
example : extract_bytes "ábc".data [⟨3, 4⟩, ⟨2, 3⟩] = "cb".data := by decide
example : extract_bytes "ábc".data [⟨0, 2⟩, ⟨5, 6⟩] = "á".data := by decide

example :
    extract_fields ["Captain".data, "Sham".data, "12345".data] [⟨0, 1⟩, ⟨3, 4⟩] =
      ["Captain".data] := by decide
example :
    extract_fields ["Captain".data, "Sham".data, "12345".data] [⟨1, 2⟩, ⟨0, 1⟩] =
      ["Sham".data, "Captain".data] := by decide

example : parse_pos "1".data = .ok [⟨0, 1⟩] := by rfl
example : parse_pos "01".data = .ok [⟨0, 1⟩] := by rfl
example : parse_pos "1,7,3-5".data = .ok [⟨0, 1⟩, ⟨6, 7⟩, ⟨2, 5⟩] := by rfl
example : parse_pos "0001-03".data = .ok [⟨0, 3⟩] := by rfl
example : parse_pos "0".data = .error (illegalListValueMsg "0".data) := by rfl
example : parse_pos "00".data = .error (illegalListValueMsg "0".data) := by rfl
example : parse_pos "+1".data = .error (illegalListValueMsg "+1".data) := by rfl
example : parse_pos "1-1".data = .error (rangeOrderMsg 1 1) := by rfl
example : parse_pos "2-1".data = .error (rangeOrderMsg 2 1) := by rfl
example : parse_pos "0-0".data = .error (illegalListValueMsg "0".data) := by rfl
example : parse_pos "1-".data = .error (illegalListValueMsg "1-".data) := by rfl
example : parse_pos "".data = .error (illegalListValueMsg "".data) := by rfl
example : parse_pos ['٥'] = .error invalidDigitMsg := by rfl
example : parse_pos ('1' :: ['٥']) = .error invalidDigitMsg := by rfl
example : parse_pos ('١' :: '-' :: ['٣']) = .error invalidDigitMsg := by rfl
example : parse_pos "18446744073709551615".data =
    .ok [⟨18446744073709551614, 18446744073709551615⟩] := by rfl
example : parse_pos "18446744073709551616".data = .error overflowMsg := by rfl

theorem filterMap_get?_range' {α : Type} (l : List α) :
    ∀ (n s : Nat), (List.range' s n).filterMap l.get? = (l.drop s).take n := by
  intro n
  induction n with
  | zero => intro s; simp
  | succ n ih =>
    intro s
    rw [List.range'_succ, List.filterMap_cons]
    by_cases hs : s < l.length
    · rw [List.get?_eq_get hs, ih (s + 1), List.drop_eq_getElem_cons hs]
      rfl
    · have hle : l.length ≤ s := Nat.le_of_not_lt hs
      rw [List.get?_eq_none.mpr hle, ih (s + 1),
        List.drop_eq_nil_of_le hle, List.drop_eq_nil_of_le (by omega)]
      simp

theorem fields_in_range_eq (record : StringRecord) (r : RRange) :
    fields_in_range record r = (record.drop r.start).take (r.stop - r.start) :=
  filterMap_get?_range' record (r.stop - r.start) r.start

theorem extract_fields_eq (record : StringRecord) (positions : List RRange) :
    extract_fields record positions =
      (positions.map fun r => (record.drop r.start).take (r.stop - r.start)).flatten := by
  induction positions with
  | nil => rfl
  | cons p ps ih =>
    simp only [extract_fields, List.flatMap_cons, List.map_cons, List.flatten_cons] at *
    rw [ih, fields_in_range_eq]

/-- C1: the claim states that in every mode each in-bounds index of a range
contributes its element even when the range over-reaches the sequence; but
character-mode (and byte-mode) extraction drops the whole range `(0,5)`
over the 3-element sequence `"abc"`, yielding `""` instead of `"abc"`. -/
theorem C1_counterexample :
    extract_chars "abc".data [⟨0, 5⟩] = [] ∧
      extract_chars "abc".data [⟨0, 5⟩] ≠ "abc".data := by
  decide

/-- C1 (amended): extraction visits the ranges in order; field-mode
extraction appends, for each index in `[start, stop)`, the element at that
index exactly when the index is in bounds (out-of-bounds indices are
silently skipped, with no error and no padding, so an over-reaching range
still yields its in-bounds fields); character- and byte-mode extraction
instead contribute the elements of a range only when the whole range is in
bounds, and the empty string otherwise. -/
theorem C1_amended_in_bounds_extraction :
    ∀ (record : StringRecord) (positions : List RRange) (chars : Str)
      (bytes : List Nat) (r : RRange),
      extract_fields record positions =
        (positions.map fun rr => (record.drop rr.start).take (rr.stop - rr.start)).flatten ∧
      chars_in_range chars r =
        (if r.start < r.stop ∧ r.stop ≤ chars.length then
          (chars.drop r.start).take (r.stop - r.start)
        else []) ∧
      bytes_in_range bytes r =
        (if r.start < r.stop ∧ r.stop ≤ bytes.length then
          from_utf8_lossy ((bytes.drop r.start).take (r.stop - r.start))
        else []) := by
  intro record positions chars bytes r
  exact ⟨extract_fields_eq record positions, rfl, rfl⟩

/-- C2: in character and byte mode a range contributes elements only when
its entire interval lies within the sequence — a range whose `stop`
exceeds the sequence length contributes the empty string even when its
`start` is in bounds (range `(0,5)` over the 3-character line `"abc"`
yields `""`); field mode instead skips out-of-bounds indices individually,
keeping the in-bounds prefix of the range. -/
theorem C2_whole_range_bounds_check :
    ∀ (chars : Str) (bytes : List Nat) (record : StringRecord) (r : RRange),
      (chars.length < r.stop → chars_in_range chars r = []) ∧
      (bytes.length < r.stop → bytes_in_range bytes r = []) ∧
      fields_in_range record r = (record.drop r.start).take (r.stop - r.start) := by
  intro chars bytes record r
  refine ⟨fun h => ?_, fun h => ?_, fields_in_range_eq record r⟩
  · simp only [chars_in_range]
    rw [if_neg]
    omega
  · simp only [bytes_in_range]
    rw [if_neg]
    omega

theorem C2_witness :
    chars_in_range "abc".data ⟨0, 5⟩ = [] ∧
      fields_in_range ["A".data, "B".data, "C".data] ⟨0, 5⟩ =
        ["A".data, "B".data, "C".data] := by
  have h := C2_whole_range_bounds_check "abc".data []
    ["A".data, "B".data, "C".data] ⟨0, 5⟩
  refine ⟨h.1 (by decide), ?_⟩
  rw [h.2.2]
  decide

/-- C8: character-mode extraction indexes by unicode scalar value, not byte
offset — for every line whose first character is multi-byte (UTF-8 length
greater than one byte), extracting range `(0,1)` yields exactly that one
whole character. -/
theorem C8_char_mode_code_points :
    ∀ (c : Char) (rest : Str), 1 < (utf8EncodeChar c.toNat).length →
      extract_chars (c :: rest) [⟨0, 1⟩] = [c] := by
  intro c rest _
  simp [extract_chars, chars_in_range]

theorem C8_witness :
    1 < (utf8EncodeChar ('á'.toNat)).length ∧
      extract_chars ('á' :: "bc".data) [⟨0, 1⟩] = ['á'] :=
  ⟨by decide, C8_char_mode_code_points 'á' "bc".data (by decide)⟩

theorem takeWhile_eq_self_of_all {α : Type} (p : α → Bool) :
    ∀ (t : List α), t.all p → t.takeWhile p = t := by
  intro t
  induction t with
  | nil => simp
  | cons c cs ih =>
    intro h
    rw [List.all_cons, Bool.and_eq_true] at h
    simp [List.takeWhile_cons, h.1, ih h.2]

theorem dropWhile_eq_nil_of_all {α : Type} (p : α → Bool) :
    ∀ (t : List α), t.all p → t.dropWhile p = [] := by
  intro t
  induction t with
  | nil => simp
  | cons c cs ih =>
    intro h
    rw [List.all_cons, Bool.and_eq_true] at h
    simp [List.dropWhile_cons, h.1, ih h.2]

theorem takeWhile_append_stop {α : Type} (p : α → Bool) (x : α) (hx : p x = false) :
    ∀ (l r : List α), l.all p →
      (l ++ x :: r).takeWhile p = l ∧ (l ++ x :: r).dropWhile p = x :: r := by
  intro l
  induction l with
  | nil =>
    intro r _
    constructor
    · simp [List.takeWhile_cons, hx]
    · simp [List.dropWhile_cons, hx]
  | cons c cs ih =>
    intro r h
    rw [List.all_cons, Bool.and_eq_true] at h
    constructor
    · simp [List.takeWhile_cons, h.1, (ih r h.2).1]
    · simp [List.dropWhile_cons, h.1, (ih r h.2).2]

theorem isAsciiDigit_isDigit {c : Char} (h : isAsciiDigit c = true) :
    isDigit c = true := by
  rw [isAsciiDigit, Bool.and_eq_true, decide_eq_true_iff, decide_eq_true_iff] at h
  rw [isDigit, List.any_eq_true]
  refine ⟨(0x30, 0x39), ?_, ?_⟩
  · rw [ndRanges]
    exact List.mem_cons_self _ _
  · simp [h.1, h.2]

theorem all_ascii_all_digit {t : Str} (h : t.all isAsciiDigit) :
    t.all isDigit := by
  rw [List.all_eq_true] at h ⊢
  exact fun c hc => isAsciiDigit_isDigit (h c hc)

theorem foldl_digits_ge (t : Str) :
    ∀ a : Nat, a ≤ t.foldl (fun acc c => 10 * acc + (c.toNat - '0'.toNat)) a := by
  induction t with
  | nil => intro a; simp
  | cons c cs ih =>
    intro a
    rw [List.foldl_cons]
    exact le_trans (by omega) (ih (10 * a + (c.toNat - '0'.toNat)))

theorem parseUsize_ascii :
    ∀ (t : Str) (acc : Nat), acc ≤ USIZE_MAX → t.all isAsciiDigit →
      parseUsize acc t =
        if t.foldl (fun acc c => 10 * acc + (c.toNat - '0'.toNat)) acc ≤ USIZE_MAX
        then .ok (t.foldl (fun acc c => 10 * acc + (c.toNat - '0'.toNat)) acc)
        else .error overflowMsg := by
  intro t
  induction t with
  | nil =>
    intro acc hacc _
    simp [parseUsize, hacc]
  | cons c cs ih =>
    intro acc hacc hall
    rw [List.all_cons, Bool.and_eq_true] at hall
    rw [List.foldl_cons]
    simp only [parseUsize, hall.1, if_true]
    by_cases hov : 10 * acc + (c.toNat - '0'.toNat) ≤ USIZE_MAX
    · rw [if_pos hov, ih _ hov hall.2]
    · rw [if_neg hov]
      have hge := foldl_digits_ge cs (10 * acc + (c.toNat - '0'.toNat))
      rw [if_neg (by omega)]

theorem parse_index_ascii {t : Str} (hne : t ≠ []) (hall : t.all isAsciiDigit) :
    parse_index t =
      if digitsToNat t ≤ USIZE_MAX then .ok (digitsToNat t)
      else .error overflowMsg := by
  cases t with
  | nil => exact absurd rfl hne
  | cons c cs =>
    show parseUsize 0 (c :: cs) = _
    rw [parseUsize_ascii (c :: cs) 0 (Nat.zero_le _) hall]
    rfl

theorem matchIntervalRe_digits {t : Str} (hne : t ≠ []) (hall : t.all isDigit) :
    matchIntervalRe t = some (t, none) := by
  unfold matchIntervalRe
  rw [takeWhile_eq_self_of_all isDigit t hall, dropWhile_eq_nil_of_all isDigit t hall]
  simp [List.isEmpty_eq_false_iff_exists_mem, hne]

theorem matchIntervalRe_pair {ta tb : Str} (ha : ta ≠ []) (halla : ta.all isDigit)
    (hb : tb ≠ []) (hallb : tb.all isDigit) :
    matchIntervalRe (ta ++ '-' :: tb) = some (ta, some tb) := by
  have h := takeWhile_append_stop isDigit '-' (by decide) ta tb halla
  unfold matchIntervalRe
  rw [h.1, h.2]
  have hta : ta.isEmpty = false := by cases ta with
    | nil => exact absurd rfl ha
    | cons c cs => rfl
  have htb : tb.isEmpty = false := by cases tb with
    | nil => exact absurd rfl hb
    | cons c cs => rfl
  simp [hta, htb, hallb]

theorem interval_to_range_single {t : Str} {n : Nat} (hne : t ≠ [])
    (hall : t.all isAsciiDigit) (hv : digitsToNat t = n) (hmax : n ≤ USIZE_MAX)
    (h1 : 1 ≤ n) :
    interval_to_range t = .ok ⟨n - 1, n⟩ := by
  have hlt : ¬ n < 1 := by omega
  have hp : parse_index t = .ok n := by
    rw [parse_index_ascii hne hall, hv, if_pos hmax]
  simp [interval_to_range, matchIntervalRe_digits hne (all_ascii_all_digit hall),
    hp, hlt]

theorem interval_to_range_pair {ta tb : Str} {a b : Nat} (ha : ta ≠ [])
    (halla : ta.all isAsciiDigit) (hb : tb ≠ []) (hallb : tb.all isAsciiDigit)
    (hva : digitsToNat ta = a) (hvb : digitsToNat tb = b)
    (hmaxa : a ≤ USIZE_MAX) (hmaxb : b ≤ USIZE_MAX) (h1 : 1 ≤ a) :
    interval_to_range (ta ++ '-' :: tb) =
      if a < b then .ok ⟨a - 1, b⟩ else .error (rangeOrderMsg a b) := by
  have hlt : ¬ a < 1 := by omega
  have hpa : parse_index ta = .ok a := by
    rw [parse_index_ascii ha halla, hva, if_pos hmaxa]
  have hpb : parse_index tb = .ok b := by
    rw [parse_index_ascii hb hallb, hvb, if_pos hmaxb]
  simp [interval_to_range,
    matchIntervalRe_pair ha (all_ascii_all_digit halla) hb
      (all_ascii_all_digit hallb),
    hpa, hpb, hlt, create_range_error]

theorem interval_to_range_ok_lt {t : Str} {r : RRange}
    (h : interval_to_range t = .ok r) : r.start < r.stop := by
  unfold interval_to_range at h
  repeat' split at h
  all_goals simp [create_interval_error, create_range_error] at h
  all_goals subst h
  all_goals dsimp only
  all_goals omega

theorem collectRanges_ok_lt :
    ∀ {ts : List Str} {l : List RRange}, collectRanges ts = .ok l →
      ∀ r ∈ l, r.start < r.stop := by
  intro ts
  induction ts with
  | nil =>
    intro l h r hr
    unfold collectRanges at h
    injection h with h
    subst h
    simp at hr
  | cons t ts ih =>
    intro l h r hr
    unfold collectRanges at h
    cases hit : interval_to_range t with
    | error e => rw [hit] at h; simp at h
    | ok r0 =>
      rw [hit] at h
      cases hts : collectRanges ts with
      | error e => rw [hts] at h; simp at h
      | ok rs =>
        rw [hts] at h
        simp only [] at h
        injection h with h
        subst h
        rcases List.mem_cons.mp hr with hr0 | hrs
        · subst hr0; exact interval_to_range_ok_lt hit
        · exact ih hts r hrs

theorem collectRanges_append :
    ∀ {ts1 : List Str} {l1 : List RRange} (_ : collectRanges ts1 = .ok l1)
      {ts2 : List Str} {l2 : List RRange} (_ : collectRanges ts2 = .ok l2),
      collectRanges (ts1 ++ ts2) = .ok (l1 ++ l2) := by
  intro ts1
  induction ts1 with
  | nil =>
    intro l1 h1 ts2 l2 h2
    unfold collectRanges at h1
    injection h1 with h1
    subst h1
    simpa using h2
  | cons t ts ih =>
    intro l1 h1 ts2 l2 h2
    unfold collectRanges at h1
    cases hit : interval_to_range t with
    | error e => rw [hit] at h1; simp at h1
    | ok r0 =>
      rw [hit] at h1
      cases hts : collectRanges ts with
      | error e => rw [hts] at h1; simp at h1
      | ok rs =>
        rw [hts] at h1
        simp only [] at h1
        injection h1 with h1
        subst h1
        show collectRanges (t :: (ts ++ ts2)) = _
        unfold collectRanges
        rw [hit, ih hts h2]
        rfl

theorem collectRanges_mem_error :
    ∀ {ts : List Str} {t : Str} {e : Str}, t ∈ ts →
      interval_to_range t = .error e → ∀ l, collectRanges ts ≠ .ok l := by
  intro ts
  induction ts with
  | nil => intro t e hmem; simp at hmem
  | cons t0 ts ih =>
    intro t e hmem herr l h
    unfold collectRanges at h
    rcases List.mem_cons.mp hmem with h0 | hts
    · subst h0; rw [herr] at h; simp at h
    · cases hit : interval_to_range t0 with
      | error e0 => rw [hit] at h; simp at h
      | ok r0 =>
        rw [hit] at h
        cases hts2 : collectRanges ts with
        | error e0 => rw [hts2] at h; simp at h
        | ok rs => exact ih hts herr rs hts2

theorem splitOn_ne_nil (sep : Char) (s : Str) : splitOn sep s ≠ [] := by
  cases s with
  | nil => simp [splitOn]
  | cons c rest =>
    simp only [splitOn]
    split
    · simp
    · split <;> simp

theorem splitOn_no_sep (sep : Char) :
    ∀ (s : Str), (∀ c ∈ s, c ≠ sep) → splitOn sep s = [s] := by
  intro s
  induction s with
  | nil => intro _; rfl
  | cons c rest ih =>
    intro h
    have hc : c ≠ sep := h c (List.mem_cons_self c rest)
    have hrest := ih (fun x hx => h x (List.mem_cons_of_mem c hx))
    simp only [splitOn, if_neg hc, hrest]

theorem splitOn_append (sep : Char) (s1 s2 : Str) :
    splitOn sep (s1 ++ sep :: s2) = splitOn sep s1 ++ splitOn sep s2 := by
  induction s1 with
  | nil => simp [splitOn]
  | cons c rest ih =>
    by_cases hc : c = sep
    · have h1 : splitOn sep ((c :: rest) ++ sep :: s2) =
          [] :: splitOn sep (rest ++ sep :: s2) := by
        simp [splitOn, hc]
      rw [h1, ih]
      simp [splitOn, hc]
    · have h1 : splitOn sep ((c :: rest) ++ sep :: s2) =
          match splitOn sep (rest ++ sep :: s2) with
          | [] => [[c]]
          | t :: ts => (c :: t) :: ts := by
        simp [splitOn, hc]
      rw [h1, ih]
      cases hr : splitOn sep rest with
      | nil => exact absurd hr (splitOn_ne_nil sep rest)
      | cons t ts => simp [splitOn, hc, hr]

theorem matchIntervalRe_some_grammar {t : Str} {pr : Str × Option Str}
    (h : matchIntervalRe t = some pr) : specTokenGrammar t := by
  have hsplit := List.takeWhile_append_dropWhile isDigit t
  simp only [matchIntervalRe] at h
  split at h
  · exact absurd h (by simp)
  · rename_i hne
    split at h
    · rename_i hdw
      left
      refine ⟨?_, ?_⟩
      · intro he
        subst he
        simp at hne
      · intro c hc
        rw [hdw, List.append_nil] at hsplit
        rw [← hsplit] at hc
        exact List.mem_takeWhile_imp hc
    · rename_i ds hdw
      split at h
      · rename_i hds
        rw [Bool.and_eq_true, Bool.not_eq_true'] at hds
        right
        refine ⟨t.takeWhile isDigit, ds, ?_, ?_, ?_, ?_, ?_⟩
        · rw [← hdw, hsplit]
        · intro he
          rw [he] at hne
          simp at hne
        · intro he
          rw [he] at hds
          simp at hds
        · intro c hc
          exact List.mem_takeWhile_imp hc
        · intro c hc
          exact List.all_eq_true.mp hds.2 c hc
      · exact absurd h (by simp)
    · exact absurd h (by simp)

theorem not_grammar_illegal {t : Str} (hng : ¬ specTokenGrammar t) :
    interval_to_range t = .error (illegalListValueMsg t) := by
  cases hm : matchIntervalRe t with
  | some pr => exact absurd (matchIntervalRe_some_grammar hm) hng
  | none =>
    unfold interval_to_range
    rw [hm]
    rfl

theorem digits_not_comma {t : Str} (hall : t.all isDigit) :
    ∀ c ∈ t, c ≠ ',' := by
  intro c hc he
  subst he
  exact absurd (List.all_eq_true.mp hall _ hc) (by decide)

/-- C3: a single-position token with parsed value `n >= 1` parses to the
half-open range `(n-1)..n`, and a range token `a-b` with `1 <= a < b`
parses to `(a-1)..b`. -/
theorem C3_token_to_half_open_range :
    ∀ (t ta tb : Str) (n a b : Nat),
      (t ≠ [] → t.all isAsciiDigit → digitsToNat t = n → 1 ≤ n → n ≤ USIZE_MAX →
        parse_pos t = .ok [⟨n - 1, n⟩]) ∧
      (ta ≠ [] → ta.all isAsciiDigit → tb ≠ [] → tb.all isAsciiDigit →
        digitsToNat ta = a → digitsToNat tb = b → 1 ≤ a → a < b →
        b ≤ USIZE_MAX → parse_pos (ta ++ '-' :: tb) = .ok [⟨a - 1, b⟩]) := by
  intro t ta tb n a b
  constructor
  · intro hne hall hv h1 hmax
    have hsp : splitOn ',' t = [t] :=
      splitOn_no_sep ',' t (digits_not_comma (all_ascii_all_digit hall))
    unfold parse_pos
    rw [hsp]
    unfold collectRanges
    rw [interval_to_range_single hne hall hv hmax h1]
    rfl
  · intro ha halla hb hallb hva hvb h1 hab hmax
    have hsp : splitOn ',' (ta ++ '-' :: tb) = [ta ++ '-' :: tb] := by
      apply splitOn_no_sep
      intro c hc
      rcases List.mem_append.mp hc with h | h
      · exact digits_not_comma (all_ascii_all_digit halla) c h
      · rcases List.mem_cons.mp h with h | h
        · subst h; decide
        · exact digits_not_comma (all_ascii_all_digit hallb) c h
    unfold parse_pos
    rw [hsp]
    unfold collectRanges
    rw [interval_to_range_pair ha halla hb hallb hva hvb (by omega) hmax h1,
      if_pos hab]
    rfl

theorem C3_witness :
    parse_pos "7".data = .ok [⟨6, 7⟩] ∧
      parse_pos ("3".data ++ '-' :: "5".data) = .ok [⟨2, 5⟩] := by
  have h := C3_token_to_half_open_range "7".data "3".data "5".data 7 3 5
  exact ⟨h.1 (by decide) (by decide) (by decide) (by decide) (by decide),
    h.2 (by decide) (by decide) (by decide) (by decide) (by decide)
      (by decide) (by decide) (by decide) (by decide)⟩

/-- C4: the claim states every range token `a-b` with `a >= b` fails with
the order error citing `(a, b)`; but the token `0-0` (where `a = b = 0`)
hits the `start < 1` check first and fails with the illegal-list-value
error echoing `"0"`, not with the order error. -/
theorem C4_counterexample :
    interval_to_range "0-0".data = .error (illegalListValueMsg "0".data) ∧
      illegalListValueMsg "0".data ≠ rangeOrderMsg 0 0 := by
  exact ⟨by rfl, by decide⟩

/-- C4 (amended): a range token `a-b` with `b <= a` and `a >= 1` fails with
the order error citing the parsed pair `(a, b)` exactly (a range token
whose first number is below 1, such as `0-0`, instead fails with the
illegal-list-value error); and every range in a successful parse result
satisfies `start < stop`, so no successfully parsed range is empty or
inverted. -/
theorem C4_amended_order_error :
    ∀ (ta tb : Str) (a b : Nat) (s : Str) (l : List RRange),
      (ta ≠ [] → ta.all isAsciiDigit → tb ≠ [] → tb.all isAsciiDigit →
        digitsToNat ta = a → digitsToNat tb = b → 1 ≤ a → b ≤ a →
        a ≤ USIZE_MAX → b ≤ USIZE_MAX →
        interval_to_range (ta ++ '-' :: tb) = .error (rangeOrderMsg a b)) ∧
      (parse_pos s = .ok l → ∀ r ∈ l, r.start < r.stop) := by
  intro ta tb a b s l
  constructor
  · intro ha halla hb hallb hva hvb h1 hba hmaxa hmaxb
    rw [interval_to_range_pair ha halla hb hallb hva hvb hmaxa hmaxb h1,
      if_neg (by omega)]
  · intro h
    exact collectRanges_ok_lt h

theorem C4_witness :
    interval_to_range ("2".data ++ '-' :: "1".data) = .error (rangeOrderMsg 2 1) ∧
      (⟨0, 1⟩ : RRange).start < (⟨0, 1⟩ : RRange).stop := by
  have h := C4_amended_order_error "2".data "1".data 2 1 "1".data [⟨0, 1⟩]
  exact ⟨h.1 (by decide) (by decide) (by decide) (by decide) (by decide)
      (by decide) (by decide) (by decide) (by decide) (by decide),
    h.2 (by rfl) ⟨0, 1⟩ (by decide)⟩

/-- C5: a token that matches neither `^\d+$` nor `^\d+-\d+$` (with `\d`
the regex crate's Unicode digit class) is rejected with the
illegal-list-value error echoing that token, and a single invalid token
among the comma-separated tokens of a spec makes the whole parse fail (no
partial result). -/
theorem C5_invalid_token_rejected :
    ∀ (t s : Str) (l : List RRange),
      (¬ specTokenGrammar t → interval_to_range t = .error (illegalListValueMsg t)) ∧
      (t ∈ splitOn ',' s → ¬ specTokenGrammar t → parse_pos s ≠ .ok l) := by
  intro t s l
  refine ⟨not_grammar_illegal, fun hmem hng => ?_⟩
  exact collectRanges_mem_error hmem (not_grammar_illegal hng) l

theorem C5_witness :
    interval_to_range ['-'] = .error (illegalListValueMsg ['-']) ∧
      parse_pos "1,-".data ≠ .ok [⟨0, 1⟩] := by
  have hng : ¬ specTokenGrammar ['-'] := by
    rintro (⟨_, hall⟩ | ⟨d1, d2, heq, hd1, _, _, _⟩)
    · exact absurd (hall '-' (by simp)) (by decide)
    · have hlen := congrArg List.length heq
      simp [List.length_append] at hlen
      exact hd1 (List.eq_nil_of_length_eq_zero (by omega))
  have h := C5_invalid_token_rejected ['-'] "1,-".data [⟨0, 1⟩]
  exact ⟨h.1 hng, h.2 (by decide) hng⟩

/-- C6: a token of ASCII digits — the tokens to which `parse::<usize>`
assigns a numeric value — whose value is below 1 fails with the
illegal-list-value error echoing the parsed numeric value rather than the
original token text, so the token `00` is reported as `"0"`. -/
theorem C6_zero_value_echoes_parsed :
    ∀ (t : Str),
      (t ≠ [] → t.all isAsciiDigit → digitsToNat t = 0 →
        interval_to_range t = .error (illegalListValueMsg (natToStr 0))) ∧
      parse_pos "00".data = .error (illegalListValueMsg "0".data) ∧
      illegalListValueMsg "0".data ≠ illegalListValueMsg "00".data := by
  intro t
  refine ⟨fun hne hall hv => ?_, by rfl, by decide⟩
  have hp : parse_index t = .ok 0 := by
    rw [parse_index_ascii hne hall, hv, if_pos (Nat.zero_le _)]
  simp [interval_to_range, matchIntervalRe_digits hne (all_ascii_all_digit hall),
    hp, create_interval_error, create_range_error]

theorem C6_witness :
    interval_to_range "00".data = .error (illegalListValueMsg (natToStr 0)) :=
  (C6_zero_value_echoes_parsed "00".data).1 (by decide) (by decide) (by decide)

/-- C7: parsing preserves the order and repetition of the comma-separated
tokens with no merging, de-duplication or sorting (`"1,7,3-5"` yields
`[(0,1),(6,7),(2,5)]`, and parses of comma-joined specs concatenate), and
field extraction follows the supplied range order rather than ascending
index order (ranges `[(1,2),(0,1)]` over fields `["A","B"]` yield
`["B","A"]`). -/
theorem C7_order_and_repetition :
    ∀ (s1 s2 : Str) (l1 l2 : List RRange),
      parse_pos "1,7,3-5".data = .ok [⟨0, 1⟩, ⟨6, 7⟩, ⟨2, 5⟩] ∧
      extract_fields ["A".data, "B".data] [⟨1, 2⟩, ⟨0, 1⟩] =
        ["B".data, "A".data] ∧
      (parse_pos s1 = .ok l1 → parse_pos s2 = .ok l2 →
        parse_pos (s1 ++ ',' :: s2) = .ok (l1 ++ l2)) := by
  intro s1 s2 l1 l2
  refine ⟨by rfl, by decide, fun h1 h2 => ?_⟩
  unfold parse_pos at *
  rw [splitOn_append ',' s1 s2]
  exact collectRanges_append h1 h2

theorem C7_witness :
    parse_pos ("1".data ++ ',' :: "2".data) = .ok [⟨0, 1⟩, ⟨1, 2⟩] := by
  have h := C7_order_and_repetition "1".data "2".data [⟨0, 1⟩] [⟨1, 2⟩]
  exact h.2.2 (by rfl) (by rfl)

theorem utf8Lead_pending {b : Nat} (h1 : 0xC2 ≤ b) (h2 : b < 0xF5) :
    ∃ p, utf8Lead b = ([], some p) := by
  unfold utf8Lead
  split_ifs <;> first | exact ⟨_, rfl⟩ | omega

theorem from_utf8_lossy_single_lead {b : Nat} (h1 : 0xC2 ≤ b) (h2 : b < 0xF5) :
    from_utf8_lossy [b] = [replacementChar] := by
  obtain ⟨p, hp⟩ := utf8Lead_pending h1 h2
  simp [from_utf8_lossy, utf8LossyAux, utf8Step, hp]

theorem strBytes_cons (c : Char) (rest : Str) :
    strBytes (c :: rest) = utf8EncodeChar c.toNat ++ strBytes rest := by
  simp [strBytes]

theorem utf8EncodeChar_multibyte_lead {n : Nat} (hv : n < 0x110000)
    (hm : 1 < (utf8EncodeChar n).length) :
    ∃ b tail, utf8EncodeChar n = b :: tail ∧ 0xC2 ≤ b ∧ b < 0xF5 := by
  unfold utf8EncodeChar at hm ⊢
  by_cases h1 : n < 0x80
  · rw [if_pos h1] at hm
    simp at hm
  · rw [if_neg h1] at hm ⊢
    by_cases h2 : n < 0x800
    · rw [if_pos h2]
      exact ⟨_, _, rfl, by omega, by omega⟩
    · rw [if_neg h2]
      by_cases h3 : n < 0x10000
      · rw [if_pos h3]
        exact ⟨_, _, rfl, by omega, by omega⟩
      · rw [if_neg h3]
        exact ⟨_, _, rfl, by omega, by omega⟩

/-- C9: byte-mode extraction indexes by raw byte offset (the selected slice
is exactly `bytes[start..stop]`, decoded through the total lossy decoder),
and a range that splits a multi-byte character yields the replacement
character U+FFFD in the output rather than an encoding error: for every
line whose first character needs more than one byte, extracting byte range
`(0,1)` yields exactly the replacement character, and likewise for any
two-byte lead byte over an arbitrary byte tail; reproduced on the
repository's own example, the first byte of `"ábc"`. -/
theorem C9_byte_mode_replacement :
    ∀ (bytes : List Nat) (r : RRange) (b : Nat) (rest : List Nat) (c : Char)
      (restLine : Str),
      bytes_in_range bytes r =
        (if r.start < r.stop ∧ r.stop ≤ bytes.length then
          from_utf8_lossy ((bytes.drop r.start).take (r.stop - r.start))
        else []) ∧
      (0xC2 ≤ b → b < 0xE0 → bytes_in_range (b :: rest) ⟨0, 1⟩ =
        [replacementChar]) ∧
      (1 < (utf8EncodeChar c.toNat).length →
        extract_bytes (c :: restLine) [⟨0, 1⟩] = [replacementChar]) ∧
      extract_bytes "ábc".data [⟨0, 1⟩] = [replacementChar] := by
  intro bytes r b rest c restLine
  refine ⟨rfl, fun h1 h2 => ?_, fun hm => ?_, by decide⟩
  · have hcond : (0 : Nat) < 1 ∧ 1 ≤ (b :: rest).length := by simp
    have hslice : ((b :: rest).drop 0).take 1 = [b] := by simp
    simp only [bytes_in_range, if_pos hcond, hslice]
    exact from_utf8_lossy_single_lead h1 (by omega)
  · have hv : c.toNat < 0x110000 := by
      rcases c.valid with h | ⟨h1, h2⟩ <;> simp [Char.toNat] <;> omega
    obtain ⟨b0, tail, henc, hb1, hb2⟩ := utf8EncodeChar_multibyte_lead hv hm
    have hbytes : strBytes (c :: restLine) = b0 :: (tail ++ strBytes restLine) := by
      rw [strBytes_cons, henc]
      simp
    show (([⟨0, 1⟩] : List RRange).map
      (bytes_in_range (strBytes (c :: restLine)))).flatten = _
    simp only [List.map_cons, List.map_nil, List.flatten_cons, List.flatten_nil,
      List.append_nil]
    rw [hbytes]
    have hcond : (0 : Nat) < 1 ∧ 1 ≤ (b0 :: (tail ++ strBytes restLine)).length := by
      simp
    have hslice : ((b0 :: (tail ++ strBytes restLine)).drop 0).take 1 = [b0] := by
      simp
    simp only [bytes_in_range, if_pos hcond, hslice]
    exact from_utf8_lossy_single_lead hb1 hb2

theorem C9_witness :
    bytes_in_range [0xC3] ⟨0, 1⟩ = [replacementChar] ∧
      1 < (utf8EncodeChar ('á'.toNat)).length ∧
      extract_bytes ('á' :: "bc".data) [⟨0, 1⟩] = [replacementChar] :=
  ⟨(C9_byte_mode_replacement [] ⟨0, 0⟩ 0xC3 [] 'a' []).2.1 (by decide) (by decide),
    by decide,
    (C9_byte_mode_replacement [] ⟨0, 0⟩ 0 [] 'á' "bc".data).2.2.1 (by decide)⟩

theorem run_loop_spec (fs : Str → Except Str (List Str)) (stdinLines : List Str)
    (config : Config) :
    ∀ (files : List Str) (acc : List Str × List Str),
      files.foldl (fun acc filename =>
        match openFile fs stdinLines filename with
        | .ok lines => (acc.1 ++ run_file lines config, acc.2)
        | .error e => (acc.1, acc.2 ++ [filename ++ ':' :: ' ' :: e])) acc =
      (acc.1 ++ (files.filterMap (fun f =>
          match openFile fs stdinLines f with
          | .ok lines => some (run_file lines config)
          | .error _ => none)).flatten,
        acc.2 ++ files.filterMap (fun f =>
          match openFile fs stdinLines f with
          | .error e => some (f ++ ':' :: ' ' :: e)
          | .ok _ => none)) := by
  intro files
  induction files with
  | nil => intro acc; simp
  | cons f files ih =>
    intro acc
    rw [List.foldl_cons]
    cases ho : openFile fs stdinLines f with
    | ok lines =>
      simp only [ho, ih, List.filterMap_cons, List.flatten_cons]
      simp [List.append_assoc]
    | error e =>
      simp only [ho, ih, List.filterMap_cons]
      simp [List.append_assoc]

/-- C10: for every file system, standard input and configuration, the run
always returns success, standard error receives one
`"<filename>: <underlying error>"` line for exactly the files that failed
to open (in order), and standard output is the concatenation of the
processed output of every file that did open — so a failure to open one
file is non-fatal and the remaining files are still processed. -/
theorem C10_open_failure_non_fatal :
    ∀ (fs : Str → Except Str (List Str)) (stdinLines : List Str)
      (config : Config),
      (run fs stdinLines config).result = .ok () ∧
      (run fs stdinLines config).stderr =
        config.files.filterMap (fun f =>
          match openFile fs stdinLines f with
          | .error e => some (f ++ ':' :: ' ' :: e)
          | .ok _ => none) ∧
      (run fs stdinLines config).stdout =
        (config.files.filterMap (fun f =>
          match openFile fs stdinLines f with
          | .ok lines => some (run_file lines config)
          | .error _ => none)).flatten := by
  intro fs stdinLines config
  have h := run_loop_spec fs stdinLines config config.files ([], [])
  simp only [run]
  rw [h]
  simp
